import Mathlib

/- Verification development for the graildient-descent repository: the text
preprocessing function of the EDA notebook and the model pipeline contract
(fit / predict / evaluate / save / load). -/

namespace GraildientDescent

/-- Python value at the public interface of preprocess_text: either a string
or any non-string value (None, NaN, numbers, lists and so on). The source
distinguishes non-strings only through isinstance(text, str), so a single
constructor models all of them. -/
inductive PyValue where
  | pyStr (s : String)
  | pyOther
  deriving DecidableEq, Repr

/-- Resources of the external NLTK library that preprocess_text closes over:
the word tokenizer, the WordNet lemmatizer and the English stopword set.
They are third-party library state, not code of this repository, so the
embedding takes them as parameters. -/
structure NLTK where
  word_tokenize : String → List String
  lemmatize : String → String
  stop_words : List String

/-- Python str.lower, applied per character (ASCII model). -/
def pyLower (s : String) : String :=
  String.mk (s.toList.map Char.toLower)

/-- Python str.isalpha: the string is nonempty and every character is
alphabetic (ASCII model). -/
def pyIsAlpha (w : String) : Bool :=
  !w.toList.isEmpty && w.toList.all Char.isAlpha

/-- Python test `not text.strip()`: true exactly when every character of the
string is whitespace, in particular when the string is empty. -/
def pyIsBlank (s : String) : Bool :=
  s.toList.all Char.isWhitespace

/-- Token cleaning inside preprocess_text (src/unnamed/part_007, the text
preprocessing notebook): over the tokenization of the lowercased text, keep
the tokens that are alphabetic and not stopwords, then lemmatize the
survivors. In the source this is the list comprehension
`[lemmatizer.lemmatize(word) for word in words if word.isalpha() and word
not in stop_words]` with `words = word_tokenize(text.lower())`. -/
def cleanTokens (nltk : NLTK) (text : String) : List String :=
  ((nltk.word_tokenize (pyLower text)).filter
      (fun word => pyIsAlpha word && !nltk.stop_words.contains word)).map
    nltk.lemmatize

/-- Python `" ".join(words)`. -/
def joinSpace : List String → String
  | [] => ""
  | [w] => w
  | w :: ws => w ++ " " ++ joinSpace ws

/-- Function preprocess_text of src/unnamed/part_007: returns the
placeholder when the input is not a string or is blank; otherwise lowercases
and tokenizes the text, keeps alphabetic non-stopword tokens, lemmatizes
them, joins them with single spaces, and returns the placeholder when that
join is empty. -/
def preprocess_text (nltk : NLTK) (text : PyValue) (placeholder : String) :
    String :=
  match text with
  | PyValue.pyOther => placeholder
  | PyValue.pyStr s =>
    if pyIsBlank s then placeholder
    else
      let processed_text := joinSpace (cleanTokens nltk s)
      if processed_text = "" then placeholder else processed_text

/-- Cleaning sequence exactly as the specification words it — lowercase,
tokenize, remove stopwords, lemmatize, drop non-alphabetic tokens, join the
survivors with single spaces — written independently of the implementation
so the two can be compared. -/
def specCleanJoin (nltk : NLTK) (text : String) : String :=
  joinSpace
    ((((nltk.word_tokenize (pyLower text)).filter
          (fun word => !nltk.stop_words.contains word)).map
        nltk.lemmatize).filter pyIsAlpha)

/-- Whitespace tokenizer, used to instantiate the external tokenizer on
concrete inputs. First argument: remaining characters; second: the current
word, reversed. -/
def splitWordsAux : List Char → List Char → List String
  | [], acc => if acc.isEmpty then [] else [String.mk acc.reverse]
  | c :: cs, acc =>
    if c = ' ' then
      (if acc.isEmpty then [] else [String.mk acc.reverse]) ++
        splitWordsAux cs []
    else splitWordsAux cs (c :: acc)

/-- Whitespace tokenization of a string. -/
def splitWords (s : String) : List String :=
  splitWordsAux s.toList []

/-- Concrete instantiation of the NLTK resources, used to evaluate the
development on concrete inputs: whitespace tokenization, the identity
lemmatizer and a fragment of the NLTK English stopword list. On the concrete
inputs used below this agrees with the real library: the NLTK tokenizer maps
a space-separated sequence of plain words to those words, "the" is an NLTK
English stopword, and the WordNet lemmatizer fixes every word involved. -/
def englishNltk : NLTK where
  word_tokenize := splitWords
  lemmatize := fun w => w
  stop_words := ["i", "a", "an", "the", "is", "are", "of", "and", "or", "to"]

/-- Error taxonomy of the core, from the specification's error handling
design: configuration errors, sub-component fit failures, use of an unfit
model, and rows missing an expected column at transform time. -/
inductive CoreError where
  | configurationError
  | fitError
  | notFittedError
  | transformMismatchError
  deriving DecidableEq, Repr

/-- Modelled from the spec: the module graildient_descent/model.py is absent
from the source tree (only its callers appear — the retraining notebook and
the sweep configurations). Column partition of the tabular columns between
the three tabular encoders, with the field names the retraining notebook
passes as transformer_params: target-style (catboost) columns, one-hot
columns and ordinal columns. -/
structure TransformerParams where
  catboost_cols : List String
  ohe_cols : List String
  oe_cols : List String
  deriving DecidableEq, Repr

/-- Modelled from the spec: the Pipeline Configuration — the immutable
choices made before training, with the field names used by the retraining
notebook, plus the tabular and text columns declared in use. -/
structure ModelConfig where
  model_name : String
  estimator_class : String
  use_tab_features : Bool
  use_text_features : Bool
  transformer_params : TransformerParams
  tab_cols : List String
  text_cols : List String
  deriving DecidableEq, Repr

/-- Concatenation of the three encoder column lists of a partition. -/
def encoderCols (p : TransformerParams) : List String :=
  p.catboost_cols ++ p.ohe_cols ++ p.oe_cols

/-- Boolean list distinctness. -/
def nodupB : List String → Bool
  | [] => true
  | x :: xs => !xs.contains x && nodupB xs

/-- Modelled from the spec: the configuration validity invariant — the
column lists assigned to different tabular encoders are pairwise disjoint
and cover exactly the tabular columns declared in use. -/
def validPartition (p : TransformerParams) (tab_cols : List String) : Bool :=
  nodupB (encoderCols p) &&
    tab_cols.all (fun c => (encoderCols p).contains c) &&
    (encoderCols p).all (fun c => tab_cols.contains c)

/-- Listing row at the pipeline interface: a finite map from column name to
raw string value. -/
abbrev Row := List (String × String)

/-- Value of a column in a row, when present. -/
def getCol (r : Row) (c : String) : Option String :=
  match r.find? (fun kv => kv.1 == c) with
  | some kv => some kv.2
  | none => none

/-- Modelled from the spec: the fitted state of one tabular column encoder —
the category mapping learned at fit time plus the fallback code every
category unseen at fit time maps to (the explicit unknown bucket). -/
structure ColEncoder where
  mapping : List (String × ℚ)
  fallback : ℚ
  deriving DecidableEq, Repr

/-- Encoding of one raw category value: its learned code, or the fallback
when the value was unseen at fit time. -/
def ColEncoder.encode (e : ColEncoder) (v : String) : ℚ :=
  match e.mapping.find? (fun kv => kv.1 == v) with
  | some kv => kv.2
  | none => e.fallback

/-- Distinct raw values of one column over a training batch (rows lacking
the column contribute nothing). -/
def distinctValues (X : List Row) (c : String) : List String :=
  (X.filterMap (fun r => getCol r c)).dedup

/-- Modelled from the spec: fitting one column encoder — every category
present in the training column receives a code, and the fallback bucket is
the code -1. -/
def fitEncoder (X : List Row) (c : String) : ColEncoder where
  mapping :=
    (distinctValues X c).map
      (fun u => (u, ((distinctValues X c).indexOf u : ℚ)))
  fallback := -1

/-- Modelled from the spec: the Fitted Pipeline State — the learned
parameters of every sub-component plus the configuration that produced
them. The estimator is modelled as a linear functional (weights and
intercept) over the feature vector. -/
structure FittedState where
  config : ModelConfig
  encoders : List (String × ColEncoder)
  vocab : List String
  weights : List ℚ
  intercept : ℚ
  deriving DecidableEq, Repr

/-- Modelled from the spec: a Model owns its configuration and, once fit or
loaded, exactly one fitted state. -/
structure Model where
  config : ModelConfig
  fitted : Option FittedState
  deriving DecidableEq, Repr

/-- Text feature of one raw text field against a fitted vocabulary: the
number of tokens of the preprocessed text that the vocabulary contains. -/
def textFeature (nltk : NLTK) (vocab : List String) (raw : String) : ℚ :=
  (((splitWords (preprocess_text nltk (PyValue.pyStr raw) "missing")).filter
      (fun w => vocab.contains w)).length : ℚ)

/-- Modelled from the spec: the text vocabulary learned at fit time — the
distinct tokens of the preprocessed text fields of the training batch. -/
def fitVocab (nltk : NLTK) (cfg : ModelConfig) (X : List Row) : List String :=
  ((X.map (fun r => cfg.text_cols.filterMap (fun c => getCol r c))).flatten.map
      (fun t => splitWords (preprocess_text nltk (PyValue.pyStr t) "missing"))).flatten.dedup

/-- Fallible map over a list, failing on the first failing element, the
shape of every per-row and per-column loop of the pipeline. -/
def mapExcept {α β : Type} (f : α → Except CoreError β) :
    List α → Except CoreError (List β)
  | [] => Except.ok []
  | x :: xs =>
    match f x with
    | Except.error e => Except.error e
    | Except.ok b =>
      match mapExcept f xs with
      | Except.error e => Except.error e
      | Except.ok bs => Except.ok (b :: bs)

/-- Fallible map over a list in the Option monad, used by
deserialization. -/
def mapOption {α β : Type} (f : α → Option β) :
    List α → Option (List β)
  | [] => some []
  | x :: xs =>
    match f x, mapOption f xs with
    | some b, some bs => some (b :: bs)
    | _, _ => none

/-- Tabular feature block of one row: each fitted encoder applied to its
column's value; a row missing an expected column is a transform mismatch,
surfaced rather than zero-filled. -/
def tabFeatures (s : FittedState) (r : Row) : Except CoreError (List ℚ) :=
  if s.config.use_tab_features then
    mapExcept
      (fun ce =>
        match getCol r ce.1 with
        | none => Except.error CoreError.transformMismatchError
        | some v => Except.ok (ce.2.encode v))
      s.encoders
  else Except.ok []

/-- Text feature block of one row: one feature per configured text column;
a row missing an expected text field is a transform mismatch. -/
def textFeatures (nltk : NLTK) (s : FittedState) (r : Row) :
    Except CoreError (List ℚ) :=
  if s.config.use_text_features then
    mapExcept
      (fun c =>
        match getCol r c with
        | none => Except.error CoreError.transformMismatchError
        | some v => Except.ok (textFeature nltk s.vocab v))
      s.config.text_cols
  else Except.ok []

/-- Dot product of two feature vectors (trailing entries of the longer
vector are ignored). -/
def dot : List ℚ → List ℚ → ℚ
  | [], _ => 0
  | _, [] => 0
  | x :: xs, z :: zs => x * z + dot xs zs

/-- Modelled from the spec: prediction for one row — the tabular and text
blocks are computed with fit-time parameters only, concatenated in the
fixed order established at fit time, and fed to the estimator. -/
def predictRow (nltk : NLTK) (s : FittedState) (r : Row) :
    Except CoreError ℚ :=
  match tabFeatures s r with
  | Except.error e => Except.error e
  | Except.ok tf =>
    match textFeatures nltk s r with
    | Except.error e => Except.error e
    | Except.ok xf => Except.ok (s.intercept + dot s.weights (tf ++ xf))

/-- Modelled from the spec: predict requires a prior fit or load and maps
the fitted row transform over the batch, one prediction per input row, in
input row order. -/
def Model.predict (m : Model) (nltk : NLTK) (X : List Row) :
    Except CoreError (List ℚ) :=
  match m.fitted with
  | none => Except.error CoreError.notFittedError
  | some s => mapExcept (predictRow nltk s) X

/-- Mean of a list of rationals. -/
def mean (ys : List ℚ) : ℚ :=
  ys.sum / (ys.length : ℚ)

/-- Modelled from the spec: the fitted state produced by a successful fit —
one encoder per partition column when tabular features are in use, the
vocabulary of the preprocessed training text when text features are in use,
and the estimator parameters learned from the training batch. -/
def mkFittedState (nltk : NLTK) (cfg : ModelConfig) (X : List Row)
    (y : List ℚ) : FittedState where
  config := cfg
  encoders :=
    if cfg.use_tab_features then
      (encoderCols cfg.transformer_params).map (fun c => (c, fitEncoder X c))
    else []
  vocab := if cfg.use_text_features then fitVocab nltk cfg X else []
  weights :=
    List.replicate
      ((if cfg.use_tab_features then
          (encoderCols cfg.transformer_params).length
        else 0) +
        (if cfg.use_text_features then cfg.text_cols.length else 0)) 1
  intercept := mean y

/-- Modelled from the spec: Model.fit validates the configuration before
touching any data (raising a configuration error on an invalid column
partition), fails with a fit error when the text branch learns an empty
vocabulary, and otherwise produces the fitted model. -/
def fitModel (nltk : NLTK) (cfg : ModelConfig) (X : List Row) (y : List ℚ) :
    Except CoreError Model :=
  if validPartition cfg.transformer_params cfg.tab_cols then
    if cfg.use_text_features && (fitVocab nltk cfg X).isEmpty then
      Except.error CoreError.fitError
    else
      Except.ok { config := cfg, fitted := some (mkFittedState nltk cfg X y) }
  else Except.error CoreError.configurationError

/-- Sum of squared differences of log1p over paired predictions and
actuals, the recursion the evaluation loop computes. The square root and
log1p of the underlying numeric library are parameters of the embedding,
rationals having no exact square root or logarithm. -/
def sumSqLogDiff (log1pFn : ℚ → ℚ) : List ℚ → List ℚ → ℚ
  | p :: ps, a :: actuals =>
    (log1pFn p - log1pFn a) ^ 2 + sumSqLogDiff log1pFn ps actuals
  | _, _ => 0

/-- Number of aligned pairs of two lists. -/
def countPairs : List ℚ → List ℚ → Nat
  | _ :: ps, _ :: actuals => 1 + countPairs ps actuals
  | _, _ => 0

/-- Root-mean-squared log error exactly as the specification defines it:
sqrt of the mean of the squared differences of log1p over the paired
predictions and actual values. -/
def rmsle (sqrtFn log1pFn : ℚ → ℚ) (preds actuals : List ℚ) : ℚ :=
  sqrtFn
    (mean ((preds.zip actuals).map
      (fun pa => (log1pFn pa.1 - log1pFn pa.2) ^ 2)))

/-- Modelled from the spec: evaluate requires a prior fit or load, predicts
on the batch and computes the error metric between predictions and true
values; it is a pure function of the fitted state and its arguments. -/
def Model.evaluate (m : Model) (nltk : NLTK) (sqrtFn log1pFn : ℚ → ℚ)
    (X : List Row) (y : List ℚ) : Except CoreError ℚ :=
  match m.fitted with
  | none => Except.error CoreError.notFittedError
  | some s =>
    match mapExcept (predictRow nltk s) X with
    | Except.error e => Except.error e
    | Except.ok preds =>
      Except.ok
        (sqrtFn (sumSqLogDiff log1pFn preds y / (countPairs preds y : ℚ)))

/-- Modelled from the spec: evaluate must not mutate fitted state; a call is
modelled state-passing style, returning the metric together with the Model
as it stands after the call. -/
def Model.evaluateCall (m : Model) (nltk : NLTK) (sqrtFn log1pFn : ℚ → ℚ)
    (X : List Row) (y : List ℚ) : Except CoreError ℚ × Model :=
  (m.evaluate nltk sqrtFn log1pFn X y, m)

/-- Serialized form of persisted state: a structured pickle value. -/
inductive Pickle where
  | pstr (s : String)
  | pnum (q : ℚ)
  | pbool (b : Bool)
  | plist (items : List Pickle)

/-- Serialization of a category-to-code pair. -/
def encodePair (p : String × ℚ) : Pickle :=
  Pickle.plist [Pickle.pstr p.1, Pickle.pnum p.2]

/-- Deserialization of a category-to-code pair. -/
def decodePair : Pickle → Option (String × ℚ)
  | Pickle.plist [Pickle.pstr s, Pickle.pnum q] => some (s, q)
  | _ => none

/-- Serialization of a list of strings. -/
def encodeStrList (l : List String) : Pickle :=
  Pickle.plist (l.map Pickle.pstr)

/-- Deserialization of a list of strings. -/
def decodeStrList : Pickle → Option (List String)
  | Pickle.plist items =>
    mapOption
      (fun p =>
        match p with
        | Pickle.pstr s => some s
        | _ => none)
      items
  | _ => none

/-- Serialization of a fitted column encoder. -/
def encodeEncoder (e : ColEncoder) : Pickle :=
  Pickle.plist [Pickle.plist (e.mapping.map encodePair), Pickle.pnum e.fallback]

/-- Deserialization of a fitted column encoder. -/
def decodeEncoder : Pickle → Option ColEncoder
  | Pickle.plist [Pickle.plist pairs, Pickle.pnum fb] =>
    match mapOption decodePair pairs with
    | some mapping => some { mapping := mapping, fallback := fb }
    | none => none
  | _ => none

/-- Serialization of a column partition. -/
def encodeParams (p : TransformerParams) : Pickle :=
  Pickle.plist
    [encodeStrList p.catboost_cols, encodeStrList p.ohe_cols,
      encodeStrList p.oe_cols]

/-- Deserialization of a column partition. -/
def decodeParams : Pickle → Option TransformerParams
  | Pickle.plist [pc, po, pe] =>
    match decodeStrList pc, decodeStrList po, decodeStrList pe with
    | some cb, some oh, some oe =>
      some { catboost_cols := cb, ohe_cols := oh, oe_cols := oe }
    | _, _, _ => none
  | _ => none

/-- Serialization of a Pipeline Configuration. -/
def encodeConfig (cfg : ModelConfig) : Pickle :=
  Pickle.plist
    [Pickle.pstr cfg.model_name, Pickle.pstr cfg.estimator_class,
      Pickle.pbool cfg.use_tab_features, Pickle.pbool cfg.use_text_features,
      encodeParams cfg.transformer_params, encodeStrList cfg.tab_cols,
      encodeStrList cfg.text_cols]

/-- Deserialization of a Pipeline Configuration. -/
def decodeConfig : Pickle → Option ModelConfig
  | Pickle.plist [Pickle.pstr mn, Pickle.pstr ec, Pickle.pbool ut,
      Pickle.pbool ux, tp, tc, xc] =>
    match decodeParams tp, decodeStrList tc, decodeStrList xc with
    | some p, some tabc, some textc =>
      some
        { model_name := mn, estimator_class := ec, use_tab_features := ut,
          use_text_features := ux, transformer_params := p, tab_cols := tabc,
          text_cols := textc }
    | _, _, _ => none
  | _ => none

/-- Serialization of a named encoder. -/
def encodeNamedEncoder (ce : String × ColEncoder) : Pickle :=
  Pickle.plist [Pickle.pstr ce.1, encodeEncoder ce.2]

/-- Deserialization of a named encoder. -/
def decodeNamedEncoder : Pickle → Option (String × ColEncoder)
  | Pickle.plist [Pickle.pstr c, pe] =>
    match decodeEncoder pe with
    | some e => some (c, e)
    | none => none
  | _ => none

/-- Serialization of the entire fitted state, the opaque blob the artifact
holds. -/
def encodeState (s : FittedState) : Pickle :=
  Pickle.plist
    [encodeConfig s.config, Pickle.plist (s.encoders.map encodeNamedEncoder),
      encodeStrList s.vocab, Pickle.plist (s.weights.map Pickle.pnum),
      Pickle.pnum s.intercept]

/-- Deserialization of the entire fitted state. -/
def decodeState : Pickle → Option FittedState
  | Pickle.plist [pc, Pickle.plist pes, pv, Pickle.plist pws, Pickle.pnum ic] =>
    match decodeConfig pc, mapOption decodeNamedEncoder pes, decodeStrList pv,
        mapOption
          (fun p =>
            match p with
            | Pickle.pnum q => some q
            | _ => none)
          pws with
    | some cfg, some encoders, some vocab, some weights =>
      some
        { config := cfg, encoders := encoders, vocab := vocab,
          weights := weights, intercept := ic }
    | _, _, _, _ => none
  | _ => none

/-- Artifact file name, deterministic from the model identifier in the
configuration, as the retraining notebook prints it. -/
def artifactName (cfg : ModelConfig) : String :=
  cfg.model_name ++ ".pkl"

/-- Persisted artifact: one file — its name and the serialized state. -/
structure Artifact where
  filename : String
  blob : Pickle

/-- Modelled from the spec: save_model requires a prior fit or load and
writes the entire fitted state as one artifact under the given directory,
named from the model identifier (the notebook calls model.save_model and
the file is the model name with extension .pkl). -/
def Model.save_model (m : Model) (dir : String) :
    Except CoreError Artifact :=
  match m.fitted with
  | none => Except.error CoreError.notFittedError
  | some s =>
    Except.ok { filename := dir ++ artifactName m.config, blob := encodeState s }

/-- Modelled from the spec: load reconstructs the whole fitted state, and
the configuration with it, from the artifact; no partial reconstruction is
valid, so a blob that does not decode yields no Model. -/
def loadModel (a : Artifact) : Option Model :=
  match decodeState a.blob with
  | some s => some { config := s.config, fitted := some s }
  | none => none

/-- Column partition used for concrete evaluation, a cut-down version of
the retraining notebook's best-model transformer_params. -/
def demoParams : TransformerParams where
  catboost_cols := ["designer"]
  ohe_cols := ["category"]
  oe_cols := ["condition"]

/-- Configuration used for concrete evaluation, shaped like the retraining
notebook's best-model configuration. -/
def demoConfig : ModelConfig where
  model_name := "catboost_v1"
  estimator_class := "catboost"
  use_tab_features := true
  use_text_features := false
  transformer_params := demoParams
  tab_cols := ["designer", "category", "condition"]
  text_cols := []

/-- Configuration assigning the column condition to two tabular encoders at
once, violating the partition invariant. -/
def overlapConfig : ModelConfig :=
  { demoConfig with
    transformer_params :=
      { catboost_cols := ["designer"], ohe_cols := ["condition"],
        oe_cols := ["condition"] } }

/-- Training batch used for concrete evaluation. Neither row carries the
designer value unknownbrand. -/
def demoTrainRows : List Row :=
  [[("designer", "gucci"), ("category", "tops"), ("condition", "used")],
    [("designer", "prada"), ("category", "tops"), ("condition", "new")]]

/-- Training targets used for concrete evaluation. -/
def demoTrainY : List ℚ :=
  [3, 4]

/-- Inference row carrying a designer value unseen in the training batch. -/
def demoRow : Row :=
  [("designer", "unknownbrand"), ("category", "tops"), ("condition", "used")]

/-- Minimal fitted state used for concrete evaluation of the fitted-model
contract (no features, zero intercept). -/
def demoState : FittedState where
  config := demoConfig
  encoders := []
  vocab := []
  weights := []
  intercept := 0

/-- Fitted model used for concrete evaluation. -/
def demoModel : Model where
  config := demoConfig
  fitted := some demoState

/-- Unfit model used for concrete evaluation. -/
def demoUnfitModel : Model where
  config := demoConfig
  fitted := none

/-- Inference batch of two rows used for concrete evaluation. -/
def demoBatch : List Row :=
  [[("category", "tops")], [("category", "bottoms")]]

/-- Claim C2: preprocess_text returns the placeholder "missing" on every
non-string input, on every blank (empty or whitespace-only) string, and on
every string all of whose tokens are removed by the cleaning filter; and on
every input whatsoever its result is a nonempty string (in particular never
the empty string, and never a null value, the function being total with
return type String). -/
theorem preprocess_text_placeholder (nltk : NLTK) (text : PyValue) :
    ((text = PyValue.pyOther ∨
        (∃ s, text = PyValue.pyStr s ∧ pyIsBlank s = true) ∨
        (∃ s, text = PyValue.pyStr s ∧
          (nltk.word_tokenize (pyLower s)).filter
              (fun word => pyIsAlpha word && !nltk.stop_words.contains word) =
            [])) →
      preprocess_text nltk text "missing" = "missing") ∧
    preprocess_text nltk text "missing" ≠ "" := by
  constructor
  · intro h
    rcases h with h | ⟨s, rfl, hb⟩ | ⟨s, rfl, hf⟩
    · subst h; rfl
    · simp [preprocess_text, hb]
    · simp only [preprocess_text, cleanTokens, hf, List.map_nil]
      split
      · rfl
      · rfl
  · cases text with
    | pyOther => simp [preprocess_text]
    | pyStr s =>
      simp only [preprocess_text]
      split
      · simp
      · split
        · simp
        · assumption

/-- Claim C2 witness: on the whitespace-only string "  " the function
returns "missing", which is nonempty. -/
theorem preprocess_text_placeholder_witness :
    preprocess_text englishNltk (PyValue.pyStr "  ") "missing" = "missing" ∧
    preprocess_text englishNltk (PyValue.pyStr "  ") "missing" ≠ "" :=
  ⟨(preprocess_text_placeholder englishNltk (PyValue.pyStr "  ")).1
      (Or.inr (Or.inl ⟨"  ", rfl, by decide⟩)),
    (preprocess_text_placeholder englishNltk (PyValue.pyStr "  ")).2⟩

/-- Claim C3 counterexample: on the string "the" — a lone stopword, which
the NLTK tokenizer maps to itself, the English stopword list contains, and
the WordNet lemmatizer fixes — the implementation returns the placeholder
"missing", while the cleaning sequence exactly as the claim states it
(returning the surviving tokens joined by single spaces) produces the empty
string, so the claimed equality fails on this string input. -/
theorem preprocess_text_ne_specCleanJoin :
    preprocess_text englishNltk (PyValue.pyStr "the") "missing" = "missing" ∧
    specCleanJoin englishNltk "the" = "" ∧
    preprocess_text englishNltk (PyValue.pyStr "the") "missing" ≠
      specCleanJoin englishNltk "the" := by
  refine ⟨by decide, by decide, ?_⟩
  decide

/-- Claim C3 as amended: for every string input that is not blank,
preprocess_text lowercases and tokenizes it, keeps exactly the alphabetic
non-stopword tokens, lemmatizes them, and joins the survivors with single
spaces — except that it returns the placeholder "missing" instead whenever
that join is empty. -/
theorem preprocess_text_cleaning (nltk : NLTK) (s : String)
    (h : pyIsBlank s = false) :
    preprocess_text nltk (PyValue.pyStr s) "missing" =
      (if joinSpace (cleanTokens nltk s) = "" then "missing"
        else joinSpace (cleanTokens nltk s)) := by
  simp [preprocess_text, h]

/-- Claim C3 amended witness: the input "vintage the jacket" is not blank,
and the function returns the join of its cleaned tokens. -/
theorem preprocess_text_cleaning_witness :
    pyIsBlank "vintage the jacket" = false ∧
    preprocess_text englishNltk (PyValue.pyStr "vintage the jacket")
        "missing" =
      (if joinSpace (cleanTokens englishNltk "vintage the jacket") = ""
        then "missing"
        else joinSpace (cleanTokens englishNltk "vintage the jacket")) :=
  ⟨by decide, preprocess_text_cleaning englishNltk "vintage the jacket"
    (by decide)⟩

/-- Claim C10: preprocess_text is total over arbitrary interface values:
every non-string input (None, NaN, numbers, and so on, all reaching the
isinstance test) maps to the placeholder rather than being coerced or
rejected, and on every input the call returns a string — either the
placeholder or the join of the cleaned tokens. -/
theorem preprocess_text_total (nltk : NLTK) (v : PyValue) (p : String) :
    (v = PyValue.pyOther → preprocess_text nltk v p = p) ∧
    (preprocess_text nltk v p = p ∨
      ∃ s, v = PyValue.pyStr s ∧
        preprocess_text nltk v p = joinSpace (cleanTokens nltk s)) := by
  constructor
  · intro h; subst h; rfl
  · cases v with
    | pyOther => exact Or.inl rfl
    | pyStr s =>
      simp only [preprocess_text]
      split
      · exact Or.inl rfl
      · split
        · exact Or.inl rfl
        · exact Or.inr ⟨s, rfl, rfl⟩

/-- Claim C10 witness: a non-string value (such as NaN or None) maps to the
placeholder "missing". -/
theorem preprocess_text_total_witness :
    preprocess_text englishNltk PyValue.pyOther "missing" = "missing" :=
  (preprocess_text_total englishNltk PyValue.pyOther "missing").1 rfl

theorem mapOption_map_eq_some {α β : Type} (enc : α → β) (dec : β → Option α)
    (h : ∀ x, dec (enc x) = some x) (l : List α) :
    mapOption dec (l.map enc) = some l := by
  induction l with
  | nil => rfl
  | cons x xs ih => simp [mapOption, h, ih]

theorem decodeStrList_encode (l : List String) :
    decodeStrList (encodeStrList l) = some l := by
  show mapOption _ (l.map Pickle.pstr) = some l
  exact mapOption_map_eq_some Pickle.pstr _ (fun x => rfl) l

theorem decodePair_encode (p : String × ℚ) :
    decodePair (encodePair p) = some p := rfl

theorem decodeEncoder_encode (e : ColEncoder) :
    decodeEncoder (encodeEncoder e) = some e := by
  cases e
  simp [encodeEncoder, decodeEncoder,
    mapOption_map_eq_some encodePair decodePair decodePair_encode]

theorem decodeParams_encode (p : TransformerParams) :
    decodeParams (encodeParams p) = some p := by
  cases p
  simp [encodeParams, decodeParams, decodeStrList_encode]

theorem decodeConfig_encode (cfg : ModelConfig) :
    decodeConfig (encodeConfig cfg) = some cfg := by
  cases cfg
  simp [encodeConfig, decodeConfig, decodeParams_encode, decodeStrList_encode]

theorem decodeNamedEncoder_encode (ce : String × ColEncoder) :
    decodeNamedEncoder (encodeNamedEncoder ce) = some ce := by
  simp [encodeNamedEncoder, decodeNamedEncoder, decodeEncoder_encode]

theorem decodeState_encode (s : FittedState) :
    decodeState (encodeState s) = some s := by
  cases s
  simp [encodeState, decodeState, decodeConfig_encode, decodeStrList_encode,
    mapOption_map_eq_some encodeNamedEncoder decodeNamedEncoder
      decodeNamedEncoder_encode,
    mapOption_map_eq_some Pickle.pnum
      (fun p =>
        match p with
        | Pickle.pnum q => some q
        | _ => none)
      (fun q => rfl)]

theorem mapExcept_error_mem {α β : Type} (f : α → Except CoreError β)
    (e : CoreError) :
    ∀ l : List α, mapExcept f l = Except.error e →
      ∃ x, x ∈ l ∧ f x = Except.error e := by
  intro l
  induction l with
  | nil => intro h; simp [mapExcept] at h
  | cons x xs ih =>
    intro h
    cases hf : f x with
    | error e2 =>
      simp [mapExcept, hf] at h
      exact ⟨x, List.mem_cons_self x xs, by rw [hf, h]⟩
    | ok b =>
      cases hm : mapExcept f xs with
      | error e2 =>
        simp [mapExcept, hf, hm] at h
        obtain ⟨z, hz, hfz⟩ := ih (by rw [hm, h])
        exact ⟨z, List.mem_cons_of_mem x hz, hfz⟩
      | ok bs => simp [mapExcept, hf, hm] at h

theorem mapExcept_ok_of_forall {α β : Type} (f : α → Except CoreError β) :
    ∀ l : List α, (∀ x ∈ l, ∃ b, f x = Except.ok b) →
      ∃ bs, mapExcept f l = Except.ok bs := by
  intro l
  induction l with
  | nil => intro _; exact ⟨[], rfl⟩
  | cons x xs ih =>
    intro h
    obtain ⟨b, hb⟩ := h x (List.mem_cons_self x xs)
    obtain ⟨bs, hbs⟩ := ih (fun z hz => h z (List.mem_cons_of_mem x hz))
    exact ⟨b :: bs, by simp [mapExcept, hb, hbs]⟩

theorem mapExcept_ok_length {α β : Type} (f : α → Except CoreError β) :
    ∀ (l : List α) (bs : List β),
      mapExcept f l = Except.ok bs → bs.length = l.length := by
  intro l
  induction l with
  | nil => intro bs h; simp [mapExcept] at h; simp [← h]
  | cons x xs ih =>
    intro bs h
    cases hf : f x with
    | error e => simp [mapExcept, hf] at h
    | ok b =>
      cases hm : mapExcept f xs with
      | error e => simp [mapExcept, hf, hm] at h
      | ok bs2 =>
        simp [mapExcept, hf, hm] at h
        subst h
        simp [ih bs2 hm]

theorem mapExcept_ok_getD {α β : Type} (f : α → Except CoreError β)
    (dA : α) (dB : β) :
    ∀ (l : List α) (bs : List β), mapExcept f l = Except.ok bs →
      ∀ i, i < l.length → f (l.getD i dA) = Except.ok (bs.getD i dB) := by
  intro l
  induction l with
  | nil => intro bs _ i hi; simp at hi
  | cons x xs ih =>
    intro bs h i hi
    cases hf : f x with
    | error e => simp [mapExcept, hf] at h
    | ok b =>
      cases hm : mapExcept f xs with
      | error e => simp [mapExcept, hf, hm] at h
      | ok bs2 =>
        simp [mapExcept, hf, hm] at h
        subst h
        cases i with
        | zero => simpa using hf
        | succ j =>
          simp only [List.getD_cons_succ]
          exact ih bs2 hm j (by simpa using hi)

theorem mapExcept_map_getD {α β : Type} (f : α → Except CoreError β)
    (dA : α) (dB : β) (l : List α) (bs : List β)
    (h : mapExcept f l = Except.ok bs) :
    ∀ idxs : List Nat, (∀ i ∈ idxs, i < l.length) →
      mapExcept f (idxs.map (fun i => l.getD i dA)) =
        Except.ok (idxs.map (fun i => bs.getD i dB)) := by
  intro idxs
  induction idxs with
  | nil => intro _; rfl
  | cons i is ih =>
    intro hlt
    have h1 : f (l.getD i dA) = Except.ok (bs.getD i dB) :=
      mapExcept_ok_getD f dA dB l bs h i (hlt i (List.mem_cons_self i is))
    have h2 := ih (fun j hj => hlt j (List.mem_cons_of_mem i hj))
    simp only [List.map_cons, mapExcept]
    rw [h1, h2]

theorem tabFeatures_error (s : FittedState) (r : Row) (e : CoreError)
    (h : tabFeatures s r = Except.error e) :
    e = CoreError.transformMismatchError := by
  unfold tabFeatures at h
  split at h
  · obtain ⟨ce, _, hce⟩ := mapExcept_error_mem _ e _ h
    cases hgc : getCol r ce.1 <;> rw [hgc] at hce <;> simp at hce
    exact hce.symm
  · simp at h

theorem textFeatures_error (nltk : NLTK) (s : FittedState) (r : Row)
    (e : CoreError) (h : textFeatures nltk s r = Except.error e) :
    e = CoreError.transformMismatchError := by
  unfold textFeatures at h
  split at h
  · obtain ⟨c, _, hc⟩ := mapExcept_error_mem _ e _ h
    cases hgc : getCol r c <;> rw [hgc] at hc <;> simp at hc
    exact hc.symm
  · simp at h

theorem predictRow_error (nltk : NLTK) (s : FittedState) (r : Row)
    (e : CoreError) (h : predictRow nltk s r = Except.error e) :
    e = CoreError.transformMismatchError := by
  unfold predictRow at h
  cases ht : tabFeatures s r with
  | error e2 =>
    rw [ht] at h
    simp at h
    exact h ▸ tabFeatures_error s r e2 ht
  | ok tf =>
    rw [ht] at h
    cases hx : textFeatures nltk s r with
    | error e2 =>
      rw [hx] at h
      simp at h
      exact h ▸ textFeatures_error nltk s r e2 hx
    | ok xf => rw [hx] at h; simp at h

theorem predictBatch_error (nltk : NLTK) (s : FittedState) (X : List Row)
    (e : CoreError) (h : mapExcept (predictRow nltk s) X = Except.error e) :
    e = CoreError.transformMismatchError := by
  obtain ⟨r, _, hr⟩ := mapExcept_error_mem _ e _ h
  exact predictRow_error nltk s r e hr

/-- Claim C4: on a configuration whose encoder column lists overlap, or do
not cover exactly the tabular columns declared in use, fit raises the
configuration error — and does so before reading or transforming any
training data: the outcome is identical for every training batch. -/
theorem fit_invalid_configuration (nltk : NLTK) (cfg : ModelConfig)
    (h : validPartition cfg.transformer_params cfg.tab_cols = false) :
    (∀ (X : List Row) (y : List ℚ),
      fitModel nltk cfg X y = Except.error CoreError.configurationError) ∧
    (∀ (X X2 : List Row) (y y2 : List ℚ),
      fitModel nltk cfg X y = fitModel nltk cfg X2 y2) := by
  constructor
  · intro X y; simp [fitModel, h]
  · intro X X2 y y2; simp [fitModel, h]

/-- Claim C4 witness: a configuration assigning the column condition to two
encoders fails with the configuration error on any data. -/
theorem fit_invalid_configuration_witness :
    fitModel englishNltk overlapConfig [] [] =
      Except.error CoreError.configurationError :=
  (fit_invalid_configuration englishNltk overlapConfig (by decide)).1 [] []

/-- Claim C5: on a Model with no fitted state, predict, evaluate and
save_model all return the not-fitted error (no implicit fitting takes
place: the calls return that error without fitting anything); on any Model
holding a fitted state — as every Model produced by a successful fit or
load does — none of the three can return the not-fitted error. -/
theorem not_fitted_discipline (m : Model) (nltk : NLTK)
    (sqrtFn log1pFn : ℚ → ℚ) (X : List Row) (y : List ℚ) (dir : String) :
    (m.fitted = none →
      m.predict nltk X = Except.error CoreError.notFittedError ∧
      m.evaluate nltk sqrtFn log1pFn X y =
        Except.error CoreError.notFittedError ∧
      m.save_model dir = Except.error CoreError.notFittedError) ∧
    (∀ s : FittedState, m.fitted = some s →
      m.predict nltk X ≠ Except.error CoreError.notFittedError ∧
      m.evaluate nltk sqrtFn log1pFn X y ≠
        Except.error CoreError.notFittedError ∧
      m.save_model dir ≠ Except.error CoreError.notFittedError) ∧
    (∀ (cfg : ModelConfig) (X2 : List Row) (y2 : List ℚ) (m2 : Model),
      fitModel nltk cfg X2 y2 = Except.ok m2 → m2.fitted ≠ none) ∧
    (∀ (a : Artifact) (m2 : Model), loadModel a = some m2 →
      m2.fitted ≠ none) := by
  refine ⟨?_, ?_, ?_, ?_⟩
  · intro h
    exact ⟨by simp [Model.predict, h], by simp [Model.evaluate, h],
      by simp [Model.save_model, h]⟩
  · intro s h
    refine ⟨?_, ?_, ?_⟩
    · simp only [Model.predict, h]
      intro hc
      exact absurd (predictBatch_error nltk s X _ hc) (by decide)
    · simp only [Model.evaluate, h]
      cases hp : mapExcept (predictRow nltk s) X with
      | error e =>
        have := predictBatch_error nltk s X e hp
        subst this
        simp
      | ok preds => simp
    · simp [Model.save_model, h]
  · intro cfg X2 y2 m2 h
    unfold fitModel at h
    split at h
    · split at h
      · simp at h
      · simp only [Except.ok.injEq] at h
        rw [← h]
        simp
    · simp at h
  · intro a m2 h
    unfold loadModel at h
    split at h
    · simp only [Option.some.injEq] at h
      rw [← h]
      simp
    · simp at h

/-- Claim C5 witness: the unfit demo model returns the not-fitted error
from predict, and the fitted demo model does not. -/
theorem not_fitted_discipline_witness :
    demoUnfitModel.predict englishNltk [] =
      Except.error CoreError.notFittedError ∧
    demoModel.predict englishNltk [] ≠
      Except.error CoreError.notFittedError :=
  ⟨((not_fitted_discipline demoUnfitModel englishNltk id id [] []
        "models/").1 rfl).1,
    ((not_fitted_discipline demoModel englishNltk id id [] [] "models/").2.1
        demoState rfl).1⟩

theorem sumSqLogDiff_eq (g : ℚ → ℚ) :
    ∀ ps qs : List ℚ,
      sumSqLogDiff g ps qs =
        ((ps.zip qs).map (fun pa => (g pa.1 - g pa.2) ^ 2)).sum := by
  intro ps
  induction ps with
  | nil => intro qs; cases qs <;> simp [sumSqLogDiff]
  | cons p ps2 ih =>
    intro qs
    cases qs with
    | nil => simp [sumSqLogDiff]
    | cons a qs2 => simp [sumSqLogDiff, ih]

theorem countPairs_eq :
    ∀ ps qs : List ℚ, countPairs ps qs = (ps.zip qs).length := by
  intro ps
  induction ps with
  | nil => intro qs; cases qs <;> simp [countPairs]
  | cons p ps2 ih =>
    intro qs
    cases qs with
    | nil => simp [countPairs]
    | cons a qs2 => simp [countPairs, ih, Nat.add_comm]

/-- Claim C6: on a fitted Model, evaluate computes exactly the
root-mean-squared log error sqrt(mean((log1p(pred) - log1p(actual))^2))
between the Model's predictions on X and y, with the square root and log1p
of the numeric library taken as parameters (a prediction failure propagates
unchanged); it is the single metric evaluate computes, and the sweep
configurations record its minimization as the goal. -/
theorem evaluate_eq_rmsle (m : Model) (s : FittedState) (nltk : NLTK)
    (sqrtFn log1pFn : ℚ → ℚ) (X : List Row) (y : List ℚ)
    (h : m.fitted = some s) :
    m.evaluate nltk sqrtFn log1pFn X y =
      (match m.predict nltk X with
        | Except.error e => Except.error e
        | Except.ok preds => Except.ok (rmsle sqrtFn log1pFn preds y)) := by
  simp only [Model.evaluate, Model.predict, h]
  cases hp : mapExcept (predictRow nltk s) X with
  | error e => rfl
  | ok preds =>
    simp only [rmsle, mean, sumSqLogDiff_eq, countPairs_eq, List.length_map]

/-- Claim C6 witness: the equality instantiated on the fitted demo model. -/
theorem evaluate_eq_rmsle_witness :
    demoModel.evaluate englishNltk id id demoBatch demoTrainY =
      (match demoModel.predict englishNltk demoBatch with
        | Except.error e => Except.error e
        | Except.ok preds => Except.ok (rmsle id id preds demoTrainY)) :=
  evaluate_eq_rmsle demoModel demoState englishNltk id id demoBatch
    demoTrainY rfl

/-- Claim C9: two successive evaluate calls on the same fitted Model with
the same (X, y) return identical results, and a call leaves the Model
unchanged — evaluate does not mutate fitted state, modelled state-passing
style by evaluateCall. -/
theorem evaluate_deterministic_pure (m : Model) (nltk : NLTK)
    (sqrtFn log1pFn : ℚ → ℚ) (X : List Row) (y : List ℚ) :
    (m.evaluateCall nltk sqrtFn log1pFn X y).2 = m ∧
    ((m.evaluateCall nltk sqrtFn log1pFn X y).2.evaluateCall nltk sqrtFn
          log1pFn X y).1 =
      (m.evaluateCall nltk sqrtFn log1pFn X y).1 :=
  ⟨rfl, rfl⟩

/-- Claim C9 witness: the purity and determinism of evaluate instantiated
on the fitted demo model. -/
theorem evaluate_deterministic_pure_witness :
    (demoModel.evaluateCall englishNltk id id demoBatch demoTrainY).2 =
      demoModel ∧
    ((demoModel.evaluateCall englishNltk id id demoBatch
            demoTrainY).2.evaluateCall englishNltk id id demoBatch
          demoTrainY).1 =
      (demoModel.evaluateCall englishNltk id id demoBatch demoTrainY).1 :=
  evaluate_deterministic_pure demoModel englishNltk id id demoBatch
    demoTrainY

/-- Claim C1: saving a fitted Model writes one artifact whose name is
determined by the model identifier of the configuration (directory, model
name, extension .pkl), and loading that artifact yields a Model whose
predictions agree with the original's on every batch — exactly, the
embedding being over exact rationals. -/
theorem save_load_roundtrip (m : Model) (s : FittedState) (dir : String)
    (h : m.fitted = some s) :
    ∃ a : Artifact,
      m.save_model dir = Except.ok a ∧
      a.filename = dir ++ (m.config.model_name ++ ".pkl") ∧
      ∃ m2 : Model, loadModel a = some m2 ∧
        ∀ (nltk : NLTK) (X : List Row),
          m2.predict nltk X = m.predict nltk X := by
  refine
    ⟨{ filename := dir ++ artifactName m.config, blob := encodeState s },
      ?_, rfl, ?_⟩
  · simp [Model.save_model, h]
  · refine ⟨{ config := s.config, fitted := some s }, ?_, ?_⟩
    · simp [loadModel, decodeState_encode]
    · intro nltk X
      simp [Model.predict, h]

/-- Claim C1 witness: the round trip instantiated on the fitted demo
model. -/
theorem save_load_roundtrip_witness :
    ∃ a : Artifact,
      demoModel.save_model "models/" = Except.ok a ∧
      a.filename = "models/" ++ (demoModel.config.model_name ++ ".pkl") ∧
      ∃ m2 : Model, loadModel a = some m2 ∧
        ∀ (nltk : NLTK) (X : List Row),
          m2.predict nltk X = demoModel.predict nltk X :=
  save_load_roundtrip demoModel demoState "models/" rfl

theorem find_map_self_none (v : String) (g : String → ℚ) :
    ∀ l : List String, v ∉ l →
      (l.map (fun u => (u, g u))).find? (fun kv => kv.1 == v) = none := by
  intro l
  induction l with
  | nil => intro _; rfl
  | cons u us ih =>
    intro hv
    have hne : (u == v) = false := by
      simp only [beq_eq_false_iff_ne]
      intro hc
      exact hv (hc ▸ List.mem_cons_self u us)
    simp only [List.map_cons, List.find?_cons, hne]
    exact ih (fun hm => hv (List.mem_cons_of_mem u hm))

theorem fitEncoder_unseen (X : List Row) (c v : String)
    (hv : v ∉ X.filterMap (fun r => getCol r c)) :
    (fitEncoder X c).encode v = (fitEncoder X c).fallback := by
  have hv2 : v ∉ distinctValues X c := by
    simpa [distinctValues, List.mem_dedup] using hv
  simp [fitEncoder, ColEncoder.encode, find_map_self_none v _ _ hv2]

theorem predictRow_ok_mk (nltk : NLTK) (cfg : ModelConfig) (X : List Row)
    (y : List ℚ) (r : Row)
    (htab : ∀ c2 ∈ encoderCols cfg.transformer_params,
      (getCol r c2).isSome = true)
    (htext : ∀ c2 ∈ cfg.text_cols, (getCol r c2).isSome = true) :
    ∃ p : ℚ, predictRow nltk (mkFittedState nltk cfg X y) r = Except.ok p := by
  have htf : ∃ tf, tabFeatures (mkFittedState nltk cfg X y) r =
      Except.ok tf := by
    unfold tabFeatures
    split
    · apply mapExcept_ok_of_forall
      intro ce hce
      have hmem : ce.1 ∈ encoderCols cfg.transformer_params := by
        simp only [mkFittedState] at hce
        split at hce
        · obtain ⟨c0, hc0, he⟩ := List.mem_map.mp hce
          rw [← he]
          exact hc0
        · simp at hce
      obtain ⟨v2, hv2⟩ := Option.isSome_iff_exists.mp (htab ce.1 hmem)
      exact ⟨ce.2.encode v2, by rw [hv2]⟩
    · exact ⟨[], rfl⟩
  have hxf : ∃ xf, textFeatures nltk (mkFittedState nltk cfg X y) r =
      Except.ok xf := by
    unfold textFeatures
    split
    · apply mapExcept_ok_of_forall
      intro c2 hc2
      obtain ⟨v2, hv2⟩ := Option.isSome_iff_exists.mp (htext c2 hc2)
      exact ⟨textFeature nltk (mkFittedState nltk cfg X y).vocab v2,
        by rw [hv2]⟩
    · exact ⟨[], rfl⟩
  obtain ⟨tf, htf2⟩ := htf
  obtain ⟨xf, hxf2⟩ := hxf
  exact ⟨_, by rw [predictRow, htf2, hxf2]⟩

/-- Claim C7: fitting on a batch in which a category value never occurs in
a given column, then predicting on a row carrying that unseen value, does
not raise: the fitted encoder maps the unseen value to its fallback bucket,
and predict returns a prediction (a rational, hence a finite number) for
the row, provided the row carries every column the fitted configuration
expects. -/
theorem unseen_category_fallback (nltk : NLTK) (cfg : ModelConfig)
    (X : List Row) (y : List ℚ) (m : Model) (c v : String) (r : Row)
    (hfit : fitModel nltk cfg X y = Except.ok m)
    (hv : v ∉ X.filterMap (fun row => getCol row c))
    (_hr : getCol r c = some v)
    (htab : ∀ c2 ∈ encoderCols cfg.transformer_params,
      (getCol r c2).isSome = true)
    (htext : ∀ c2 ∈ cfg.text_cols, (getCol r c2).isSome = true) :
    (fitEncoder X c).encode v = (fitEncoder X c).fallback ∧
    (fitEncoder X c).fallback = -1 ∧
    ∃ p : ℚ, m.predict nltk [r] = Except.ok [p] := by
  refine ⟨fitEncoder_unseen X c v hv, rfl, ?_⟩
  have hm : m = { config := cfg, fitted := some (mkFittedState nltk cfg X y) } := by
    unfold fitModel at hfit
    split at hfit
    · split at hfit
      · simp at hfit
      · simp only [Except.ok.injEq] at hfit
        exact hfit.symm
    · simp at hfit
  obtain ⟨p, hp⟩ := predictRow_ok_mk nltk cfg X y r htab htext
  refine ⟨p, ?_⟩
  rw [hm]
  show mapExcept (predictRow nltk (mkFittedState nltk cfg X y)) [r] =
    Except.ok [p]
  simp [mapExcept, hp]

/-- Claim C7 witness: fitting the demo configuration on the demo batch and
predicting on a row with the unseen designer value unknownbrand yields the
fallback encoding and a prediction. -/
theorem unseen_category_fallback_witness :
    (fitEncoder demoTrainRows "designer").encode "unknownbrand" =
      (fitEncoder demoTrainRows "designer").fallback ∧
    (fitEncoder demoTrainRows "designer").fallback = -1 ∧
    ∃ p : ℚ,
      Model.predict
          { config := demoConfig,
            fitted :=
              some (mkFittedState englishNltk demoConfig demoTrainRows
                demoTrainY) }
          englishNltk [demoRow] =
        Except.ok [p] :=
  unseen_category_fallback englishNltk demoConfig demoTrainRows demoTrainY
    { config := demoConfig,
      fitted :=
        some (mkFittedState englishNltk demoConfig demoTrainRows demoTrainY) }
    "designer" "unknownbrand" demoRow rfl (by decide) rfl (by decide)
    (by decide)

/-- Claim C8: predict returns one prediction per input row (the output
length equals the input length), and re-indexing the batch — in particular
permuting its rows — re-indexes the predictions identically, leaving every
individual prediction value unchanged. -/
theorem predict_row_order (m : Model) (nltk : NLTK) (X : List Row)
    (ps : List ℚ) (idxs : List Nat)
    (h : m.predict nltk X = Except.ok ps)
    (hidx : ∀ i ∈ idxs, i < X.length) :
    ps.length = X.length ∧
    m.predict nltk (idxs.map (fun i => X.getD i [])) =
      Except.ok (idxs.map (fun i => ps.getD i 0)) := by
  cases hm : m.fitted with
  | none => simp [Model.predict, hm] at h
  | some s =>
    simp only [Model.predict, hm] at h ⊢
    exact ⟨mapExcept_ok_length _ X ps h,
      mapExcept_map_getD _ [] 0 X ps h idxs hidx⟩

/-- Claim C8 witness: reversing the two-row demo batch reverses the two
predictions. -/
theorem predict_row_order_witness :
    ([demoState.intercept + dot demoState.weights ([] ++ []),
        demoState.intercept + dot demoState.weights ([] ++ [])] :
          List ℚ).length =
      demoBatch.length ∧
    demoModel.predict englishNltk
        ([1, 0].map (fun i => demoBatch.getD i [])) =
      Except.ok
        ([1, 0].map
          (fun i =>
            ([demoState.intercept + dot demoState.weights ([] ++ []),
                demoState.intercept +
                  dot demoState.weights ([] ++ [])]).getD i 0)) :=
  predict_row_order demoModel englishNltk demoBatch
    [demoState.intercept + dot demoState.weights ([] ++ []),
      demoState.intercept + dot demoState.weights ([] ++ [])]
    [1, 0] rfl (by decide)

end GraildientDescent
